import Mathlib

/-!
Verification of the `ctflex` problem-loader command (`loadprobs.py`) and the
admin registration module (`admin.py`) of the pactf repository.

The loader is embedded shallowly: the filesystem content of one problem
directory is a `ProbDir`, the relational store is a list of `CtfProblem`
records, YAML dictionaries are association lists with Python-dict semantics,
and the per-problem body of `Command.handle` is the function `processProblem`.
Behaviour supplied by files absent from the sources (the UUID regular
expression of `ctflex/constants.py`, the save validation and default-id
generation of `ctflex/models.py`) is kept abstract as parameters `isUuid`,
`validP` and `freshId`, so every theorem quantifies over all of their
possible behaviours.
-/

namespace Pactf

/-- A Python value as it occurs in the loader dictionaries: a string, the
value `None`, or a `Window` model object fetched by its code. -/
inductive Val where
  | str (s : String)
  | vnone
  | win (code : String)
deriving DecidableEq, Repr

/-- Python `str(v)` for the values we model: a string renders as itself. -/
def Val.toStr : Val → String
  | .str s => s
  | .vnone => "None"
  | .win c => c

/-- A Python dictionary with string keys, as an insertion-ordered
association list with unique keys maintained by the operations below. -/
abbrev Dict := List (String × Val)

/-- Lookup `d.get(k)`: the value of the first entry with key `k`. -/
def getD? (d : Dict) (k : String) : Option Val :=
  (d.find? (fun kv => kv.1 = k)).map (fun kv => kv.2)

/-- Membership `k in d`. -/
def memD (d : Dict) (k : String) : Bool :=
  (getD? d k).isSome

/-- Assignment `d[k] = v`: replace the value in place when the key exists, otherwise
append the new entry at the end (Python insertion order). -/
def setD : Dict → String → Val → Dict
  | [], k, v => [(k, v)]
  | kv :: rest, k, v =>
      if kv.1 = k then (k, v) :: rest else kv :: setD rest k v

/-- Deletion `del d[k]`. -/
def eraseD (d : Dict) (k : String) : Dict :=
  d.filter (fun kv => kv.1 ≠ k)

/-- Python `d.setdefault(k, v)`. -/
def setDefaultD (d : Dict) (k : String) (v : Val) : Dict :=
  if memD d k then d else setD d k v

/-- The value the last entry of `d` with key `k` carries, if any. -/
def lastGetD : Dict → String → Option Val
  | [], _ => none
  | kv :: rest, k =>
      match lastGetD rest k with
      | some v => some v
      | none => if kv.1 = k then some kv.2 else none

/-- Writing the pairs of `d` one by one onto `a` (the attribute form of
Python keyword expansion and of the `setattr` loop). -/
def mergeD (a : Dict) (d : Dict) : Dict :=
  d.foldl (fun acc kv => setD acc kv.1 kv.2) a

/-- A `CtfProblem` model instance: its attribute dictionary. The primary
key lives under the attribute `id`. -/
structure CtfProblem where
  attrs : Dict
deriving DecidableEq, Repr

/-- The attribute `problem.id`, the primary key. -/
def pk (p : CtfProblem) : Val :=
  (getD? p.attrs "id").getD Val.vnone

/-- Python `str(problem.id)`. -/
def pkStr (p : CtfProblem) : String :=
  (pk p).toStr

/-- The `setattr` loop of the update branch: write every `(attr, value)`
pair of `data` onto the fetched instance. -/
def applyData (p : CtfProblem) (data : Dict) : CtfProblem :=
  ⟨mergeD p.attrs data⟩

/-- The query `CtfProblem.objects.filter(id=u).get()` on a store with unique primary
keys: the record whose pk is `u`, if any. -/
def dbFind (db : List CtfProblem) (u : Val) : Option CtfProblem :=
  db.find? (fun p => pk p = u)

/-- The call `problem.save()` on the row level: update the row with this primary key
when one exists, insert a new row otherwise. -/
def upsert (db : List CtfProblem) (p : CtfProblem) : List CtfProblem :=
  if db.any (fun q => pk q = pk p) then
    db.map (fun q => if pk q = pk p then p else q)
  else db ++ [p]

/-- The loader-relevant filesystem content of one problem directory:
the parsed `problem.yaml` (none when opening it raises), the content of the
`.uuid` marker file, the content of the `.uuid.rejected` backup file, and
whether a `static` subdirectory exists. -/
structure ProbDir where
  yaml : Option Dict
  uuidFile : Option String
  uuidRejected : Option String
  hasStatic : Bool
deriving DecidableEq, Repr

/-- Behaviour of this repository that other modules supply.
`isUuid s` is the anchored regular-expression test
`re.match(UUID_REGEX + chr(36), s)` with `UUID_REGEX` from
`ctflex/constants.py`; `validP p` is whether `p.save()` passes validation
in `ctflex/models.py`. Both files are outside the given sources, so they
stay abstract. -/
structure GEnv where
  isUuid : String → Bool
  validP : CtfProblem → Bool

/-- Per-directory nondeterminism of the outside world: whether
`shutil.copytree` succeeds, and the default id `ctflex/models.py`
generates for a freshly instantiated `CtfProblem`. -/
structure PEnv where
  copyOk : Bool
  freshId : String

/-- Which branch the loader announced for a directory. -/
inductive Action where
  | skipped
  | updated
  | created
deriving DecidableEq, Repr

/-- The three exception classes the loader catches per directory. -/
inductive LoadError where
  | noProblemFile
  | validationError
  | copyError
deriving DecidableEq, Repr

/-- Everything one iteration of the per-problem loop produces: the store
and the directory afterwards, the static trees copied (named by their
destination basename under the intermediate static location), the branch
taken, the in-memory `problem` instance, the id appended to
`processed_problems` (if any), and the exception passed to `handle_error`
(if any). -/
structure StepOut where
  db : List CtfProblem
  dir : ProbDir
  copies : List String
  action : Action
  prob : Option CtfProblem
  processedId : Option Val
  error : Option LoadError
deriving DecidableEq, Repr

/-- Python `os.path.join` for the paths the loader builds. -/
def pjoin (a b : String) : String := a ++ "/" ++ b

/-- The ASCII whitespace characters `str.strip()` removes. -/
def pyWhitespace (c : Char) : Bool :=
  c = ' ' || c = '\t' || c = '\n' || c = '\r' || c = '\x0b' || c = '\x0c'

/-- Python `s.strip()`: drop leading and trailing whitespace. -/
def pstrip (s : String) : String :=
  String.mk
    (((s.data.dropWhile pyWhitespace).reverse.dropWhile pyWhitespace).reverse)

/-- The tail of the loop body from `problem.save()` on: catch validation
errors, copy the `static` tree to a destination named `str(uuid)`, and
append `problem.id` to the processed list only after both succeed. -/
def finishSave (g : GEnv) (pe : PEnv) (db : List CtfProblem) (dir : ProbDir)
    (problem : CtfProblem) (act : Action) (u : String) : StepOut :=
  if g.validP problem then
    let db' := upsert db problem
    if dir.hasStatic then
      if pe.copyOk then
        ⟨db', dir, [u], act, some problem, some (pk problem), none⟩
      else
        ⟨db', dir, [], act, some problem, none, some .copyError⟩
    else
      ⟨db', dir, [], act, some problem, some (pk problem), none⟩
  else
    ⟨db, dir, [], act, some problem, none, some .validationError⟩

/-- Instantiation `CtfProblem(**data)`: the instance takes its attributes from `data`;
when no `id` is among them the model generates its default id (kept
abstract in `PEnv.freshId`, as `ctflex/models.py` is outside the given
sources). -/
def mkProblem (pe : PEnv) (data : Dict) : CtfProblem :=
  if memD data "id" then ⟨data⟩ else ⟨setD data "id" (Val.str pe.freshId)⟩

/-- The create branch: instantiate `CtfProblem(**data)`, then write
`str(problem.id)` to the `.uuid` marker file before attempting the save. -/
def createPath (g : GEnv) (pe : PEnv) (db : List CtfProblem) (dir : ProbDir)
    (data : Dict) : StepOut :=
  let problem := mkProblem pe data
  let u := pkStr problem
  let dir' := { dir with uuidFile := some u }
  finishSave g pe db dir' problem .created u

/-- The data transformations before the `.uuid` regex check: set the
grader path, and drop an obsolete integer `id` from the parsed YAML; then
record the stripped marker content under `id` when a marker file was
present. -/
def dataAfterUuid (ppath : String) (data0 : Dict) (uuidTrim : Option String) :
    Dict :=
  let data1 := setD data0 "grader" (Val.str (pjoin ppath "grader.py"))
  let data2 := if memD data1 "id" then eraseD data1 "id" else data1
  match uuidTrim with
  | some u => setD data2 "id" (Val.str u)
  | none => data2

/-- The complete dictionary the loader reconciles with: the above, plus
the window object (the `Window` row is assumed to exist, as the loader
never catches its lookup) and the defaults for `dynamic`, `description`
and `hint`. -/
def fullData (wcode ppath : String) (data0 : Dict) (uuidTrim : Option String) :
    Dict :=
  let d := dataAfterUuid ppath data0 uuidTrim
  let d := setD d "window" (Val.win wcode)
  let d := setDefaultD d "dynamic" Val.vnone
  let d := setDefaultD d "description" (Val.str "")
  setDefaultD d "hint" (Val.str "")

/-- One iteration of the per-problem loop of `Command.handle`: load the
problem file, build the data dictionary, read and validate the `.uuid`
marker file (moving a rejected marker aside to `.uuid.rejected`), then
update the fetched record in place when `uuid` is non-`None` and the
query matches, create a new record otherwise, save, and copy static
files. -/
def processProblem (g : GEnv) (wcode : String) (pe : PEnv)
    (db : List CtfProblem) (ppath : String) (dir : ProbDir) : StepOut :=
  match dir.yaml with
  | none => ⟨db, dir, [], .skipped, none, none, some .noProblemFile⟩
  | some data0 =>
    match dir.uuidFile with
    | some content =>
      let u := pstrip content
      let data := fullData wcode ppath data0 (some u)
      if g.isUuid u then
        match dbFind db (Val.str u) with
        | some existing =>
            finishSave g pe db dir (applyData existing data) .updated u
        | none => createPath g pe db dir data
      else
        createPath g pe db
          { dir with uuidFile := none, uuidRejected := some content } data
    | none => createPath g pe db dir (fullData wcode ppath data0 none)

/-- A directory entry as the walk sees it: a plain file, or a
subdirectory carrying its payload. -/
inductive Entry (α : Type) where
  | file (name : String)
  | dir (name : String) (payload : α)

/-- Python `basename.startswith` applied to a one-character underscore prefix:
whether the name begins with an underscore. -/
def startsUnderscore (s : String) : Bool :=
  match s.data with
  | [] => false
  | c :: _ => c = '_'

/-- The generator `Command.walk`: yield the subdirectories of a listing, skipping plain
files and names that begin with an underscore. -/
def walk {α : Type} (entries : List (Entry α)) : List (String × α) :=
  entries.filterMap fun e =>
    match e with
    | .file _ => none
    | .dir n p => if startsUnderscore n then none else some (n, p)

/-- The payload of a problem-level subdirectory: its loader-relevant
content together with the outside-world behaviour for it. -/
structure PDirEntry where
  content : ProbDir
  penv : PEnv

/-- The listing of a window directory. -/
abbrev PTree := List (Entry PDirEntry)

/-- The listing of the top-level problems directory. -/
abbrev WTree := List (Entry PTree)

/-- The accumulator of `Command.handle` while it rotates over the window
folders: the store, `self.errors`, `processed_problems`, and the static
trees copied so far. -/
structure LoopState where
  db : List CtfProblem
  errors : List LoadError
  processed : List Val
  copies : List String
deriving DecidableEq, Repr

/-- One non-debug loop iteration: run the body and let `handle_error`
append any exception to `self.errors` while the loop continues. -/
def stepState (g : GEnv) (wcode wpath : String) (st : LoopState)
    (pname : String) (pe : PDirEntry) : LoopState :=
  let r := processProblem g wcode pe.penv st.db (pjoin wpath pname) pe.content
  { db := r.db,
    errors := st.errors ++ r.error.toList,
    processed := st.processed ++ r.processedId.toList,
    copies := st.copies ++ r.copies }

/-- The inner loop over one window in non-debug mode. -/
def runProbs (g : GEnv) (wcode wpath : String)
    (probs : List (String × PDirEntry)) (st : LoopState) : LoopState :=
  probs.foldl (fun st pr => stepState g wcode wpath st pr.1 pr.2) st

/-- The outer loop over the window folders in non-debug mode. -/
def runWindows (g : GEnv) (base : String)
    (ws : List (String × PTree)) (st : LoopState) : LoopState :=
  ws.foldl (fun st w => runProbs g w.1 (pjoin base w.1) (walk w.2) st) st

/-- The whole double loop of `Command.handle` in non-debug mode, walking
both directory levels and starting from an empty error and processed
list. -/
def handleLoop (g : GEnv) (base : String) (tree : WTree)
    (db0 : List CtfProblem) : LoopState :=
  runWindows g base (walk tree) ⟨db0, [], [], []⟩

/-- The clear step: with the `clear` option, delete every problem whose
primary key was not recorded in `processed_problems`
(`CtfProblem.objects.exclude(pk__in=processed_problems)`). -/
def clearStep (clear : Bool) (db : List CtfProblem) (processed : List Val) :
    List CtfProblem :=
  if clear then db.filter (fun p => decide (pk p ∈ processed)) else db

/-- The observable outcome of a non-debug, non-interactive run of the
command after the loop, the clear step and the final error report. -/
structure HandleOut where
  db : List CtfProblem
  errors : List LoadError
  processed : List Val
  copies : List String
  raised : Bool
deriving DecidableEq, Repr

/-- The command body `Command.handle` in non-debug mode with prompts confirmed: run the
loop, apply the clear step, then raise `RuntimeError` exactly when
`self.errors` is non-empty. -/
def handle (g : GEnv) (clear : Bool) (base : String) (tree : WTree)
    (db0 : List CtfProblem) : HandleOut :=
  let st := handleLoop g base tree db0
  { db := clearStep clear st.db st.processed,
    errors := st.errors,
    processed := st.processed,
    copies := st.copies,
    raised := !st.errors.isEmpty }

/-- One debug-mode loop iteration: `handle_error` re-raises the exception
immediately, aborting the run. -/
def stepStateD (g : GEnv) (wcode wpath : String) (st : LoopState)
    (pname : String) (pe : PDirEntry) : Except LoadError LoopState :=
  let r := processProblem g wcode pe.penv st.db (pjoin wpath pname) pe.content
  match r.error with
  | some e => .error e
  | none =>
      .ok { db := r.db,
            errors := st.errors,
            processed := st.processed ++ r.processedId.toList,
            copies := st.copies ++ r.copies }

/-- The inner loop over one window in debug mode. -/
def runProbsD (g : GEnv) (wcode wpath : String)
    (probs : List (String × PDirEntry)) (st : LoopState) :
    Except LoadError LoopState :=
  probs.foldlM (fun st pr => stepStateD g wcode wpath st pr.1 pr.2) st

/-- The outer loop over the window folders in debug mode. -/
def runWindowsD (g : GEnv) (base : String)
    (ws : List (String × PTree)) (st : LoopState) :
    Except LoadError LoopState :=
  ws.foldlM (fun st w => runProbsD g w.1 (pjoin base w.1) (walk w.2) st) st

/-- The command body `Command.handle` in debug mode: the first exception propagates out of
the command; otherwise the clear step runs and no error is raised at the
end (the final report is guarded by `not self.debug`). -/
def handleD (g : GEnv) (clear : Bool) (base : String) (tree : WTree)
    (db0 : List CtfProblem) : Except LoadError HandleOut :=
  (runWindowsD g base (walk tree) ⟨db0, [], [], []⟩).map fun st =>
    { db := clearStep clear st.db st.processed,
      errors := [],
      processed := st.processed,
      copies := st.copies,
      raised := false }

/-! ## The admin module (`ctflex/admin.py`) -/

/-- The configurable part of `AllFieldModelAdmin`: the field names its
`EXCLUDE` tuple drops from the columns and the extra names its `INCLUDE`
tuple appends. The defaults are those of the base class. -/
structure AllFieldModelAdmin where
  EXCLUDE : List String := ["id"]
  INCLUDE : List String := []
deriving DecidableEq, Repr

/-- The constructor of `AllFieldModelAdmin`: the list-display columns are
the model field names not in `EXCLUDE`, followed by `INCLUDE`. -/
def listDisplay (a : AllFieldModelAdmin) (modelFields : List String) :
    List String :=
  (modelFields.filter (fun f => f ∉ a.EXCLUDE)) ++ a.INCLUDE

/-- The class `TeamAdmin`. -/
def TeamAdmin : AllFieldModelAdmin :=
  { EXCLUDE := ["id", "passphrase"], INCLUDE := ["size"] }

/-- The class `WindowAdmin` (inherits both tuples from the base class). -/
def WindowAdmin : AllFieldModelAdmin := {}

/-- The class `TimerAdmin`. -/
def TimerAdmin : AllFieldModelAdmin := { EXCLUDE := [] }

/-- The class `CtfProblemAdmin`. -/
def CtfProblemAdmin : AllFieldModelAdmin :=
  { EXCLUDE := ["id", "description", "description_html", "hint",
                "hint_html", "grader"] }

/-- The class `SolveAdmin`. -/
def SolveAdmin : AllFieldModelAdmin := { EXCLUDE := [] }

/-- The class `SubmissionAdmin`. -/
def SubmissionAdmin : AllFieldModelAdmin := { EXCLUDE := ["id", "p_id"] }

/-- The models of the ctflex data model that the admin module touches. -/
inductive ModelName where
  | user
  | team
  | window
  | timer
  | ctfProblem
  | solve
  | submission
  | announcement
deriving DecidableEq, Repr

/-- How a model is registered: through the user admin (which inlines the
competitor model on the user model), through an `AllFieldModelAdmin`
subclass, or through the hand-written announcement admin. -/
inductive AdminKind where
  | userAdmin (inlines : List String)
  | allField (a : AllFieldModelAdmin)
  | announcementAdmin (listDisplay : List String)
deriving DecidableEq, Repr

/-- The `admin.site.register` calls of `ctflex/admin.py`, in order. -/
def registrations : List (ModelName × AdminKind) :=
  [ (.user, .userAdmin ["Competitor"]),
    (.team, .allField TeamAdmin),
    (.window, .allField WindowAdmin),
    (.timer, .allField TimerAdmin),
    (.ctfProblem, .allField CtfProblemAdmin),
    (.solve, .allField SolveAdmin),
    (.submission, .allField SubmissionAdmin),
    (.announcement, .announcementAdmin ["title", "date", "window"]) ]

/-! ## Dictionary lemmas -/

theorem getD?_nil (k : String) : getD? [] k = none := rfl

theorem getD?_cons (kv : String × Val) (d : Dict) (k : String) :
    getD? (kv :: d) k = if kv.1 = k then some kv.2 else getD? d k := by
  simp only [getD?, List.find?]
  by_cases h : kv.1 = k
  · simp [h]
  · simp [h]

theorem getD?_setD_self (d : Dict) (k : String) (v : Val) :
    getD? (setD d k v) k = some v := by
  induction d with
  | nil => simp [setD, getD?_cons]
  | cons kv rest ih =>
      by_cases h : kv.1 = k
      · simp [setD, h, getD?_cons]
      · simp [setD, h, getD?_cons, ih]

theorem getD?_setD_ne (d : Dict) (k k' : String) (v : Val) (h : k' ≠ k) :
    getD? (setD d k v) k' = getD? d k' := by
  have h' : ¬ k = k' := fun hh => h hh.symm
  induction d with
  | nil => simp [setD, getD?_cons, getD?_nil, h']
  | cons kv rest ih =>
      by_cases hk : kv.1 = k
      · simp [setD, hk, getD?_cons, h']
      · simp [setD, hk, getD?_cons, ih]

theorem getD?_eraseD_self (d : Dict) (k : String) :
    getD? (eraseD d k) k = none := by
  induction d with
  | nil => rfl
  | cons kv rest ih =>
      by_cases h : kv.1 = k
      · simp [eraseD, h, List.filter] at ih ⊢
        exact ih
      · simpa [eraseD, h, List.filter, getD?_cons] using ih

theorem memD_eq_false_iff (d : Dict) (k : String) :
    memD d k = false ↔ getD? d k = none := by
  cases h : getD? d k <;> simp [memD, h]

theorem setD_eq_append (d : Dict) (k : String) (v : Val)
    (h : memD d k = false) : setD d k v = d ++ [(k, v)] := by
  induction d with
  | nil => rfl
  | cons kv rest ih =>
      rw [memD_eq_false_iff, getD?_cons] at h
      by_cases hk : kv.1 = k
      · simp [hk] at h
      · rw [memD_eq_false_iff] at ih
        simp [hk] at h
        simp [setD, hk, ih h]

theorem lastGetD_append (d1 d2 : Dict) (k : String) :
    lastGetD (d1 ++ d2) k =
      match lastGetD d2 k with
      | some v => some v
      | none => lastGetD d1 k := by
  induction d1 with
  | nil => cases h : lastGetD d2 k <;> simp [lastGetD, h]
  | cons kv rest ih =>
      cases h : lastGetD d2 k <;> cases h2 : lastGetD rest k <;>
        simp [lastGetD, ih, h, h2]

theorem lastGetD_snoc_self (d : Dict) (k : String) (v : Val) :
    lastGetD (d ++ [(k, v)]) k = some v := by
  rw [lastGetD_append]
  simp [lastGetD]

theorem lastGetD_setD_ne (d : Dict) (k k' : String) (v : Val) (h : k' ≠ k) :
    lastGetD (setD d k v) k' = lastGetD d k' := by
  have h' : ¬ k = k' := fun hh => h hh.symm
  induction d with
  | nil => simp [setD, lastGetD, h']
  | cons kv rest ih =>
      by_cases hk : kv.1 = k
      · cases h2 : lastGetD rest k' <;> simp [setD, hk, lastGetD, h', h2]
      · cases h2 : lastGetD rest k' <;>
          simp [setD, hk, lastGetD, ih, h2]

theorem lastGetD_setDefaultD_ne (d : Dict) (k k' : String) (v : Val)
    (h : k' ≠ k) : lastGetD (setDefaultD d k v) k' = lastGetD d k' := by
  unfold setDefaultD
  by_cases hm : memD d k
  · simp [hm]
  · simp [hm, lastGetD_setD_ne d k k' v h]

theorem memD_setD_ne (d : Dict) (k k' : String) (v : Val) (h : k' ≠ k) :
    memD (setD d k v) k' = memD d k' := by
  simp [memD, getD?_setD_ne d k k' v h]

theorem memD_setDefaultD_ne (d : Dict) (k k' : String) (v : Val)
    (h : k' ≠ k) : memD (setDefaultD d k v) k' = memD d k' := by
  unfold setDefaultD
  by_cases hm : memD d k
  · simp [hm]
  · simp [hm, memD_setD_ne d k k' v h]

theorem getD?_mergeD (a d : Dict) (k : String) :
    getD? (mergeD a d) k =
      match lastGetD d k with
      | some v => some v
      | none => getD? a k := by
  induction d generalizing a with
  | nil => simp [mergeD, lastGetD]
  | cons kv rest ih =>
      have step : mergeD a (kv :: rest) = mergeD (setD a kv.1 kv.2) rest := by
        simp [mergeD, List.foldl_cons]
      rw [step, ih]
      cases h2 : lastGetD rest k with
      | some v => simp [lastGetD, h2]
      | none =>
          by_cases hk : kv.1 = k
          · subst hk
            simp [lastGetD, h2, getD?_setD_self]
          · simp [lastGetD, h2, hk, getD?_setD_ne a kv.1 k kv.2 (Ne.symm hk)]

theorem getD?_setDefaultD_ne (d : Dict) (k k' : String) (v : Val)
    (h : k' ≠ k) : getD? (setDefaultD d k v) k' = getD? d k' := by
  unfold setDefaultD
  by_cases hm : memD d k
  · simp [hm]
  · simp [hm, getD?_setD_ne d k k' v h]

/-! ## Lemmas about the loader data pipeline -/

theorem memD_dataAfterUuid_none (ppath : String) (data0 : Dict) :
    memD (dataAfterUuid ppath data0 none) "id" = false := by
  unfold dataAfterUuid
  by_cases hm : memD (setD data0 "grader" (Val.str (pjoin ppath "grader.py"))) "id"
  · simp only [hm, if_true]
    rw [memD_eq_false_iff]
    exact getD?_eraseD_self _ "id"
  · simp only [hm, if_false]
    simpa using hm

theorem dataAfterUuid_some_eq (ppath : String) (data0 : Dict) (u : String) :
    dataAfterUuid ppath data0 (some u) =
      setD (dataAfterUuid ppath data0 none) "id" (Val.str u) := rfl

theorem getD?_dataAfterUuid_some (ppath : String) (data0 : Dict) (u : String) :
    getD? (dataAfterUuid ppath data0 (some u)) "id" = some (Val.str u) := by
  rw [dataAfterUuid_some_eq]
  exact getD?_setD_self _ "id" (Val.str u)

theorem lastGetD_dataAfterUuid_some (ppath : String) (data0 : Dict)
    (u : String) :
    lastGetD (dataAfterUuid ppath data0 (some u)) "id" = some (Val.str u) := by
  rw [dataAfterUuid_some_eq,
      setD_eq_append _ "id" (Val.str u) (memD_dataAfterUuid_none ppath data0)]
  exact lastGetD_snoc_self _ "id" (Val.str u)

theorem getD?_fullData_some (wcode ppath : String) (data0 : Dict)
    (u : String) :
    getD? (fullData wcode ppath data0 (some u)) "id" = some (Val.str u) := by
  unfold fullData
  rw [getD?_setDefaultD_ne _ "hint" "id" _ (by decide),
      getD?_setDefaultD_ne _ "description" "id" _ (by decide),
      getD?_setDefaultD_ne _ "dynamic" "id" _ (by decide),
      getD?_setD_ne _ "window" "id" _ (by decide)]
  exact getD?_dataAfterUuid_some ppath data0 u

theorem lastGetD_fullData_some (wcode ppath : String) (data0 : Dict)
    (u : String) :
    lastGetD (fullData wcode ppath data0 (some u)) "id" = some (Val.str u) := by
  unfold fullData
  rw [lastGetD_setDefaultD_ne _ "hint" "id" _ (by decide),
      lastGetD_setDefaultD_ne _ "description" "id" _ (by decide),
      lastGetD_setDefaultD_ne _ "dynamic" "id" _ (by decide),
      lastGetD_setD_ne _ "window" "id" _ (by decide)]
  exact lastGetD_dataAfterUuid_some ppath data0 u

theorem memD_fullData_none (wcode ppath : String) (data0 : Dict) :
    memD (fullData wcode ppath data0 none) "id" = false := by
  unfold fullData
  rw [memD_setDefaultD_ne _ "hint" "id" _ (by decide),
      memD_setDefaultD_ne _ "description" "id" _ (by decide),
      memD_setDefaultD_ne _ "dynamic" "id" _ (by decide),
      memD_setD_ne _ "window" "id" _ (by decide)]
  exact memD_dataAfterUuid_none ppath data0

theorem pk_applyData_of_last (p : CtfProblem) (d : Dict) (v : Val)
    (h : lastGetD d "id" = some v) : pk (applyData p d) = v := by
  simp [pk, applyData, getD?_mergeD, h]

/-! ## Lemmas about the store operations -/

theorem dbFind_eq_some (db : List CtfProblem) (u : Val) (q : CtfProblem)
    (h : dbFind db u = some q) : q ∈ db ∧ pk q = u := by
  refine ⟨List.mem_of_find?_eq_some h, ?_⟩
  have := List.find?_some h
  simpa using this

theorem upsert_map_pk (db : List CtfProblem) (p : CtfProblem)
    (h : ∃ q ∈ db, pk q = pk p) : (upsert db p).map pk = db.map pk := by
  obtain ⟨q0, hq0, hpq0⟩ := h
  have hany : db.any (fun q => pk q = pk p) = true := by
    simp only [List.any_eq_true, decide_eq_true_eq]
    exact ⟨q0, hq0, hpq0⟩
  rw [upsert, if_pos hany, List.map_map]
  refine List.map_congr_left ?_
  intro q _
  by_cases hq : pk q = pk p
  · simp [Function.comp, hq]
  · simp [Function.comp, hq]

theorem upsert_of_not_mem (db : List CtfProblem) (p : CtfProblem)
    (h : ∀ q ∈ db, pk q ≠ pk p) : upsert db p = db ++ [p] := by
  have hany : ¬ (db.any (fun q => pk q = pk p) = true) := by
    simp only [List.any_eq_true, decide_eq_true_eq, not_exists]
    intro q
    simp only [not_and]
    exact h q
  rw [upsert, if_neg hany]

theorem dbFind_append_single (db : List CtfProblem) (p : CtfProblem)
    (h : ∀ q ∈ db, pk q ≠ pk p) : dbFind (db ++ [p]) (pk p) = some p := by
  unfold dbFind
  rw [List.find?_append]
  have h1 : db.find? (fun q => pk q = pk p) = none := by
    rw [List.find?_eq_none]
    intro q hq
    simp [h q hq]
  simp [h1]

/-! ## Projection lemmas for the save-and-copy tail -/

theorem finishSave_action (g : GEnv) (pe : PEnv) (db : List CtfProblem)
    (dir : ProbDir) (p : CtfProblem) (act : Action) (u : String) :
    (finishSave g pe db dir p act u).action = act := by
  unfold finishSave
  by_cases hv : g.validP p = true <;> by_cases hs : dir.hasStatic = true <;>
    by_cases hc : pe.copyOk = true <;> simp [hv, hs, hc]

theorem finishSave_prob (g : GEnv) (pe : PEnv) (db : List CtfProblem)
    (dir : ProbDir) (p : CtfProblem) (act : Action) (u : String) :
    (finishSave g pe db dir p act u).prob = some p := by
  unfold finishSave
  by_cases hv : g.validP p = true <;> by_cases hs : dir.hasStatic = true <;>
    by_cases hc : pe.copyOk = true <;> simp [hv, hs, hc]

theorem finishSave_dir (g : GEnv) (pe : PEnv) (db : List CtfProblem)
    (dir : ProbDir) (p : CtfProblem) (act : Action) (u : String) :
    (finishSave g pe db dir p act u).dir = dir := by
  unfold finishSave
  by_cases hv : g.validP p = true <;> by_cases hs : dir.hasStatic = true <;>
    by_cases hc : pe.copyOk = true <;> simp [hv, hs, hc]

theorem finishSave_db_valid (g : GEnv) (pe : PEnv) (db : List CtfProblem)
    (dir : ProbDir) (p : CtfProblem) (act : Action) (u : String)
    (hv : g.validP p = true) :
    (finishSave g pe db dir p act u).db = upsert db p := by
  unfold finishSave
  by_cases hs : dir.hasStatic = true <;> by_cases hc : pe.copyOk = true <;>
    simp [hv, hs, hc]

theorem finishSave_invalid (g : GEnv) (pe : PEnv) (db : List CtfProblem)
    (dir : ProbDir) (p : CtfProblem) (act : Action) (u : String)
    (hv : g.validP p = false) :
    (finishSave g pe db dir p act u).db = db ∧
      (finishSave g pe db dir p act u).error = some LoadError.validationError ∧
      (finishSave g pe db dir p act u).processedId = none := by
  unfold finishSave
  simp [hv]

theorem finishSave_db_map (g : GEnv) (pe : PEnv) (db : List CtfProblem)
    (dir : ProbDir) (p : CtfProblem) (act : Action) (u : String)
    (h : ∃ q ∈ db, pk q = pk p) :
    (finishSave g pe db dir p act u).db.map pk = db.map pk := by
  have hm := upsert_map_pk db p h
  unfold finishSave
  by_cases hv : g.validP p = true <;> by_cases hs : dir.hasStatic = true <;>
    by_cases hc : pe.copyOk = true <;> simp [hv, hs, hc, hm]

theorem finishSave_copyFail (g : GEnv) (pe : PEnv) (db : List CtfProblem)
    (dir : ProbDir) (p : CtfProblem) (act : Action) (u : String)
    (hv : g.validP p = true) (hs : dir.hasStatic = true)
    (hc : pe.copyOk = false) :
    (finishSave g pe db dir p act u).error = some LoadError.copyError ∧
      (finishSave g pe db dir p act u).processedId = none ∧
      (finishSave g pe db dir p act u).db = upsert db p := by
  unfold finishSave
  simp [hv, hs, hc]

theorem finishSave_ok (g : GEnv) (pe : PEnv) (db : List CtfProblem)
    (dir : ProbDir) (p : CtfProblem) (act : Action) (u : String)
    (hv : g.validP p = true) (hsc : dir.hasStatic = false ∨ pe.copyOk = true) :
    (finishSave g pe db dir p act u).error = none ∧
      (finishSave g pe db dir p act u).processedId = some (pk p) ∧
      (finishSave g pe db dir p act u).copies =
        (if dir.hasStatic then [u] else []) := by
  unfold finishSave
  rcases hsc with hs | hc
  · simp [hv, hs]
  · by_cases hs : dir.hasStatic <;> simp [hv, hs, hc]

/-! ## Lemmas about the created instance and the loop-body branches -/

theorem pk_mkProblem_of_get (pe : PEnv) (data : Dict) (v : Val)
    (h : getD? data "id" = some v) : pk (mkProblem pe data) = v := by
  have hm : memD data "id" = true := by simp [memD, h]
  simp [mkProblem, hm, pk, h]

theorem pk_mkProblem_of_not_mem (pe : PEnv) (data : Dict)
    (h : memD data "id" = false) :
    pk (mkProblem pe data) = Val.str pe.freshId := by
  simp [mkProblem, h, pk, getD?_setD_self]

theorem createPath_eq (g : GEnv) (pe : PEnv) (db : List CtfProblem)
    (dir : ProbDir) (data : Dict) :
    createPath g pe db dir data =
      finishSave g pe db { dir with uuidFile := some (pkStr (mkProblem pe data)) }
        (mkProblem pe data) .created (pkStr (mkProblem pe data)) := rfl

theorem processProblem_noYaml (g : GEnv) (wcode : String) (pe : PEnv)
    (db : List CtfProblem) (ppath : String) (dir : ProbDir)
    (hy : dir.yaml = none) :
    processProblem g wcode pe db ppath dir =
      ⟨db, dir, [], .skipped, none, none, some .noProblemFile⟩ := by
  simp [processProblem, hy]

theorem processProblem_update (g : GEnv) (wcode : String) (pe : PEnv)
    (db : List CtfProblem) (ppath : String) (dir : ProbDir) (data0 : Dict)
    (c : String) (q : CtfProblem)
    (hy : dir.yaml = some data0) (hc : dir.uuidFile = some c)
    (hU : g.isUuid (pstrip c) = true)
    (hq : dbFind db (Val.str (pstrip c)) = some q) :
    processProblem g wcode pe db ppath dir =
      finishSave g pe db dir
        (applyData q (fullData wcode ppath data0 (some (pstrip c))))
        .updated (pstrip c) := by
  simp [processProblem, hy, hc, hU, hq]

theorem processProblem_create_noFile (g : GEnv) (wcode : String) (pe : PEnv)
    (db : List CtfProblem) (ppath : String) (dir : ProbDir) (data0 : Dict)
    (hy : dir.yaml = some data0) (hc : dir.uuidFile = none) :
    processProblem g wcode pe db ppath dir =
      createPath g pe db dir (fullData wcode ppath data0 none) := by
  simp [processProblem, hy, hc]

theorem processProblem_create_rejected (g : GEnv) (wcode : String) (pe : PEnv)
    (db : List CtfProblem) (ppath : String) (dir : ProbDir) (data0 : Dict)
    (c : String)
    (hy : dir.yaml = some data0) (hc : dir.uuidFile = some c)
    (hU : g.isUuid (pstrip c) = false) :
    processProblem g wcode pe db ppath dir =
      createPath g pe db { dir with uuidFile := none, uuidRejected := some c }
        (fullData wcode ppath data0 (some (pstrip c))) := by
  simp [processProblem, hy, hc, hU]

theorem processProblem_create_noMatch (g : GEnv) (wcode : String) (pe : PEnv)
    (db : List CtfProblem) (ppath : String) (dir : ProbDir) (data0 : Dict)
    (c : String)
    (hy : dir.yaml = some data0) (hc : dir.uuidFile = some c)
    (hU : g.isUuid (pstrip c) = true)
    (hq : dbFind db (Val.str (pstrip c)) = none) :
    processProblem g wcode pe db ppath dir =
      createPath g pe db dir (fullData wcode ppath data0 (some (pstrip c))) := by
  simp [processProblem, hy, hc, hU, hq]

theorem finishSave_noStatic (g : GEnv) (pe : PEnv) (db : List CtfProblem)
    (dir : ProbDir) (p : CtfProblem) (act : Action) (u : String)
    (hs : dir.hasStatic = false) :
    (finishSave g pe db dir p act u).copies = [] ∧
      (finishSave g pe db dir p act u).error ≠ some LoadError.copyError := by
  unfold finishSave
  by_cases hv : g.validP p = true <;> simp [hv, hs]

/-- Every directory with a readable problem file ends in the save-and-copy
tail, applied to some instance, with `str(uuid)` equal to the instance id
and a directory of unchanged `hasStatic`. -/
theorem processProblem_shape (g : GEnv) (wcode : String) (pe : PEnv)
    (db : List CtfProblem) (ppath : String) (dir : ProbDir) (data0 : Dict)
    (hy : dir.yaml = some data0) :
    ∃ p act dir', processProblem g wcode pe db ppath dir =
        finishSave g pe db dir' p act (pkStr p) ∧
      dir'.hasStatic = dir.hasStatic := by
  cases hc : dir.uuidFile with
  | none =>
      refine ⟨mkProblem pe (fullData wcode ppath data0 none), .created,
        { dir with
          uuidFile := some (pkStr (mkProblem pe (fullData wcode ppath data0 none))) },
        ?_, rfl⟩
      rw [processProblem_create_noFile g wcode pe db ppath dir data0 hy hc,
          createPath_eq]
  | some c =>
      by_cases hU : g.isUuid (pstrip c) = true
      · cases hq : dbFind db (Val.str (pstrip c)) with
        | some q =>
            refine ⟨applyData q (fullData wcode ppath data0 (some (pstrip c))),
              .updated, dir, ?_, rfl⟩
            have hpk : pkStr (applyData q (fullData wcode ppath data0
                (some (pstrip c)))) = (pstrip c) := by
              rw [pkStr, pk_applyData_of_last q _ _
                    (lastGetD_fullData_some wcode ppath data0 (pstrip c))]
              rfl
            rw [processProblem_update g wcode pe db ppath dir data0 c q
                  hy hc hU hq, hpk]
        | none =>
            refine ⟨mkProblem pe (fullData wcode ppath data0 (some (pstrip c))),
              .created,
              { dir with
                uuidFile := some (pkStr (mkProblem pe (fullData wcode ppath data0 (some (pstrip c))))) },
              ?_, rfl⟩
            rw [processProblem_create_noMatch g wcode pe db ppath dir data0 c
                  hy hc hU hq, createPath_eq]
      · rw [Bool.not_eq_true] at hU
        refine ⟨mkProblem pe (fullData wcode ppath data0 (some (pstrip c))),
          .created,
          { dir with
            uuidFile := some (pkStr (mkProblem pe (fullData wcode ppath data0 (some (pstrip c))))),
            uuidRejected := some c },
          ?_, rfl⟩
        rw [processProblem_create_rejected g wcode pe db ppath dir data0 c
              hy hc hU, createPath_eq]

/-! ## Claim theorems -/

/-- C1: for a problem directory whose problem file loads, the loader takes
the update branch exactly when a `.uuid` marker file is present, its
stripped content passes the UUID test, and a `CtfProblem` with that id is
in the store; in that case the fetched record is updated in place (via
`applyData` with the directory data, leaving the stored primary keys
unchanged), and in every other case the create branch runs. -/
theorem C1_upsert_reconciliation (g : GEnv) (wcode : String) (pe : PEnv)
    (db : List CtfProblem) (ppath : String) (dir : ProbDir) (data0 : Dict)
    (hy : dir.yaml = some data0) :
    ((processProblem g wcode pe db ppath dir).action = Action.updated ∨
      (processProblem g wcode pe db ppath dir).action = Action.created)
    ∧ ((processProblem g wcode pe db ppath dir).action = Action.updated ↔
        ∃ c q, dir.uuidFile = some c ∧ g.isUuid (pstrip c) = true ∧
          dbFind db (Val.str (pstrip c)) = some q)
    ∧ (∀ c q, dir.uuidFile = some c → g.isUuid (pstrip c) = true →
        dbFind db (Val.str (pstrip c)) = some q →
          (processProblem g wcode pe db ppath dir).prob =
            some (applyData q (fullData wcode ppath data0 (some (pstrip c)))) ∧
          (processProblem g wcode pe db ppath dir).db.map pk = db.map pk) := by
  cases hc : dir.uuidFile with
  | none =>
      rw [processProblem_create_noFile g wcode pe db ppath dir data0 hy hc,
          createPath_eq]
      refine ⟨Or.inr (finishSave_action g pe db _ _ _ _), ?_, ?_⟩
      · rw [finishSave_action]
        constructor
        · intro h
          exact absurd h (by simp)
        · rintro ⟨c, q, hcc, -, -⟩
          exact absurd hcc (by simp)
      · intro c q hcc
        exact absurd hcc (by simp)
  | some c =>
      by_cases hU : g.isUuid (pstrip c) = true
      · cases hq : dbFind db (Val.str (pstrip c)) with
        | some q =>
            rw [processProblem_update g wcode pe db ppath dir data0 c q
                  hy hc hU hq]
            have hpk : pk (applyData q (fullData wcode ppath data0
                (some (pstrip c)))) = Val.str (pstrip c) :=
              pk_applyData_of_last q _ _
                (lastGetD_fullData_some wcode ppath data0 (pstrip c))
            have hqm := dbFind_eq_some db _ q hq
            refine ⟨Or.inl (finishSave_action g pe db _ _ _ _), ?_, ?_⟩
            · rw [finishSave_action]
              exact ⟨fun _ => ⟨c, q, rfl, hU, hq⟩, fun _ => rfl⟩
            · intro c' q' hcc hU' hq'
              have hcc' : c' = c := (Option.some_inj.mp hcc).symm
              subst hcc'
              rw [hq] at hq'
              have hq'' : q' = q := (Option.some_inj.mp hq').symm
              subst hq''
              refine ⟨finishSave_prob g pe db _ _ _ _, ?_⟩
              refine finishSave_db_map g pe db _ _ _ _ ⟨_, hqm.1, ?_⟩
              rw [hqm.2, hpk]
        | none =>
            rw [processProblem_create_noMatch g wcode pe db ppath dir data0 c
                  hy hc hU hq, createPath_eq]
            refine ⟨Or.inr (finishSave_action g pe db _ _ _ _), ?_, ?_⟩
            · rw [finishSave_action]
              constructor
              · intro h
                exact absurd h (by simp)
              · rintro ⟨c', q', hcc, hU', hq'⟩
                have hcc' : c' = c := (Option.some_inj.mp hcc).symm
                subst hcc'
                rw [hq] at hq'
                exact absurd hq' (by simp)
            · intro c' q' hcc hU' hq'
              have hcc' : c' = c := (Option.some_inj.mp hcc).symm
              subst hcc'
              rw [hq] at hq'
              exact absurd hq' (by simp)
      · rw [Bool.not_eq_true] at hU
        rw [processProblem_create_rejected g wcode pe db ppath dir data0 c
              hy hc hU, createPath_eq]
        refine ⟨Or.inr (finishSave_action g pe db _ _ _ _), ?_, ?_⟩
        · rw [finishSave_action]
          constructor
          · intro h
            exact absurd h (by simp)
          · rintro ⟨c', q', hcc, hU', -⟩
            have hcc' : c' = c := (Option.some_inj.mp hcc).symm
            subst hcc'
            rw [hU] at hU'
            exact absurd hU' (by simp)
        · intro c' q' hcc hU'
          have hcc' : c' = c := (Option.some_inj.mp hcc).symm
          subst hcc'
          rw [hU] at hU'
          exact absurd hU' (by simp)

/-- C1 witness: a directory with a valid matching marker takes the update
branch. -/
theorem C1_witness :
    ((⟨some [], some "u1", none, false⟩ : ProbDir).yaml = some []) ∧
    (processProblem ⟨fun s => s == "u1", fun _ => true⟩ "w" ⟨true, "f"⟩
      [⟨[("id", Val.str "u1")]⟩] "p"
      ⟨some [], some "u1", none, false⟩).action = Action.updated :=
  ⟨rfl,
    (C1_upsert_reconciliation ⟨fun s => s == "u1", fun _ => true⟩ "w"
      ⟨true, "f"⟩ [⟨[("id", Val.str "u1")]⟩] "p"
      ⟨some [], some "u1", none, false⟩ [] rfl).2.1.mpr
      ⟨"u1", ⟨[("id", Val.str "u1")]⟩, rfl, by decide, by decide⟩⟩

/-- C2: a marker file whose stripped content fails the UUID test is moved
aside to the `.uuid.rejected` backup and the create branch runs, whatever
the store holds. -/
theorem C2_rejected_marker (g : GEnv) (wcode : String) (pe : PEnv)
    (db : List CtfProblem) (ppath : String) (dir : ProbDir) (data0 : Dict)
    (c : String)
    (hy : dir.yaml = some data0) (hc : dir.uuidFile = some c)
    (hU : g.isUuid (pstrip c) = false) :
    (processProblem g wcode pe db ppath dir).dir.uuidRejected = some c ∧
      (processProblem g wcode pe db ppath dir).action = Action.created := by
  rw [processProblem_create_rejected g wcode pe db ppath dir data0 c hy hc hU,
      createPath_eq]
  exact ⟨by rw [finishSave_dir], finishSave_action g pe db _ _ _ _⟩

/-- C2 witness: a malformed marker is backed up and a create happens even
though a record with the very same id sits in the store. -/
theorem C2_witness :
    ((⟨fun s => s == "u1", fun _ => true⟩ : GEnv).isUuid "bad" = false) ∧
    (processProblem ⟨fun s => s == "u1", fun _ => true⟩ "w" ⟨true, "f"⟩
      [⟨[("id", Val.str "bad")]⟩] "p"
      ⟨some [], some "bad", none, false⟩).dir.uuidRejected = some "bad" ∧
    (processProblem ⟨fun s => s == "u1", fun _ => true⟩ "w" ⟨true, "f"⟩
      [⟨[("id", Val.str "bad")]⟩] "p"
      ⟨some [], some "bad", none, false⟩).action = Action.created :=
  ⟨rfl,
    (C2_rejected_marker ⟨fun s => s == "u1", fun _ => true⟩ "w" ⟨true, "f"⟩
      [⟨[("id", Val.str "bad")]⟩] "p" ⟨some [], some "bad", none, false⟩
      [] "bad" rfl rfl (by decide)).1,
    (C2_rejected_marker ⟨fun s => s == "u1", fun _ => true⟩ "w" ⟨true, "f"⟩
      [⟨[("id", Val.str "bad")]⟩] "p" ⟨some [], some "bad", none, false⟩
      [] "bad" rfl rfl (by decide)).2⟩

/-- C8: after a marker is rejected, the rejected string is still the `id`
entry of the data dictionary, so the instance built on the create branch
carries the rejected string as its primary key, not a fresh identifier. -/
theorem C8_rejected_id_kept (g : GEnv) (wcode : String) (pe : PEnv)
    (db : List CtfProblem) (ppath : String) (dir : ProbDir) (data0 : Dict)
    (c : String)
    (hy : dir.yaml = some data0) (hc : dir.uuidFile = some c)
    (hU : g.isUuid (pstrip c) = false) :
    ∃ p, (processProblem g wcode pe db ppath dir).prob = some p ∧
      pk p = Val.str (pstrip c) := by
  rw [processProblem_create_rejected g wcode pe db ppath dir data0 c hy hc hU,
      createPath_eq]
  refine ⟨mkProblem pe (fullData wcode ppath data0 (some (pstrip c))),
    finishSave_prob g pe db _ _ _ _, ?_⟩
  exact pk_mkProblem_of_get pe _ _ (getD?_fullData_some wcode ppath data0 (pstrip c))

/-- C8 witness: with marker content `bad` and fresh id `fresh-id`, the
created instance has primary key `bad`. -/
theorem C8_witness :
    ∃ p, (processProblem ⟨fun s => s == "u1", fun _ => true⟩ "w"
      ⟨true, "fresh-id"⟩ [] "p" ⟨some [], some "bad", none, false⟩).prob =
        some p ∧ pk p = Val.str "bad" := by
  have h := C8_rejected_id_kept ⟨fun s => s == "u1", fun _ => true⟩ "w"
    ⟨true, "fresh-id"⟩ [] "p" ⟨some [], some "bad", none, false⟩ [] "bad"
    rfl rfl (by decide)
  simpa using h

/-- C9: on the create branch the `.uuid` marker is written with the new
instance id before the save runs, so a save that fails validation leaves
the marker on disk while the store is unchanged. -/
theorem C9_marker_written_despite_failed_save (g : GEnv) (wcode : String)
    (pe : PEnv) (db : List CtfProblem) (ppath : String) (dir : ProbDir)
    (data0 : Dict)
    (hy : dir.yaml = some data0) (hc : dir.uuidFile = none)
    (hv : g.validP (mkProblem pe (fullData wcode ppath data0 none)) = false) :
    (processProblem g wcode pe db ppath dir).dir.uuidFile =
      some (pkStr (mkProblem pe (fullData wcode ppath data0 none))) ∧
    (processProblem g wcode pe db ppath dir).db = db ∧
    (processProblem g wcode pe db ppath dir).error =
      some LoadError.validationError := by
  rw [processProblem_create_noFile g wcode pe db ppath dir data0 hy hc,
      createPath_eq]
  have hi := finishSave_invalid g pe db
    { dir with
      uuidFile := some (pkStr (mkProblem pe (fullData wcode ppath data0 none))) }
    (mkProblem pe (fullData wcode ppath data0 none)) .created
    (pkStr (mkProblem pe (fullData wcode ppath data0 none))) hv
  exact ⟨by rw [finishSave_dir], hi.1, hi.2.1⟩

/-- C9 witness: with validation always failing, the marker file holds the
fresh id while the store stays empty. -/
theorem C9_witness :
    (processProblem ⟨fun s => s == "u1", fun _ => false⟩ "w" ⟨true, "f1"⟩
      [] "p" ⟨some [], none, none, false⟩).dir.uuidFile = some "f1" ∧
    (processProblem ⟨fun s => s == "u1", fun _ => false⟩ "w" ⟨true, "f1"⟩
      [] "p" ⟨some [], none, none, false⟩).db = [] ∧
    (processProblem ⟨fun s => s == "u1", fun _ => false⟩ "w" ⟨true, "f1"⟩
      [] "p" ⟨some [], none, none, false⟩).error =
      some LoadError.validationError := by
  have h := C9_marker_written_despite_failed_save
    ⟨fun s => s == "u1", fun _ => false⟩ "w" ⟨true, "f1"⟩ [] "p"
    ⟨some [], none, none, false⟩ [] rfl rfl (by decide)
  simpa using h

/-- C6: when the save succeeds and a `static` subdirectory exists and the
copy goes through, exactly one tree is copied and its destination is named
`str` of the problem id; a directory without `static` triggers no copy at
all (and can never raise a copy error). -/
theorem C6_static_copy (g : GEnv) (wcode : String) (pe : PEnv)
    (db : List CtfProblem) (ppath : String) (dir : ProbDir) :
    (∀ p, (processProblem g wcode pe db ppath dir).prob = some p →
      g.validP p = true → dir.hasStatic = true → pe.copyOk = true →
      (processProblem g wcode pe db ppath dir).copies = [pkStr p])
    ∧ (dir.hasStatic = false →
        (processProblem g wcode pe db ppath dir).copies = [] ∧
        (processProblem g wcode pe db ppath dir).error ≠
          some LoadError.copyError) := by
  cases hy : dir.yaml with
  | none =>
      rw [processProblem_noYaml g wcode pe db ppath dir hy]
      constructor
      · intro p hp
        exact absurd hp (by simp)
      · intro _
        exact ⟨rfl, by simp⟩
  | some data0 =>
      obtain ⟨p, act, dir', heq, hstat⟩ :=
        processProblem_shape g wcode pe db ppath dir data0 hy
      rw [heq]
      constructor
      · intro p' hp' hv hs hcOk
        have hp'' : p' = p := by
          rw [finishSave_prob] at hp'
          exact (Option.some_inj.mp hp').symm
        rw [hp''] at hv ⊢
        have hok := finishSave_ok g pe db dir' p act (pkStr p) hv (Or.inr hcOk)
        rw [hok.2.2, hstat, hs]
        simp
      · intro hs
        have hs' : dir'.hasStatic = false := by rw [hstat, hs]
        exact finishSave_noStatic g pe db dir' p act (pkStr p) hs'

/-- C6 witness: with a static directory present, a successful run copies
one tree, named after the fresh problem id. -/
theorem C6_witness :
    (⟨some [], none, none, true⟩ : ProbDir).hasStatic = true ∧
    (processProblem ⟨fun s => s == "u1", fun _ => true⟩ "w" ⟨true, "f1"⟩
      [] "p" ⟨some [], none, none, true⟩).copies = ["f1"] := by
  refine ⟨rfl, ?_⟩
  have h := (C6_static_copy ⟨fun s => s == "u1", fun _ => true⟩ "w"
      ⟨true, "f1"⟩ [] "p" ⟨some [], none, none, true⟩).1
      (mkProblem ⟨true, "f1"⟩ (fullData "w" "p" [] none))
      (by decide) rfl rfl rfl
  rw [h]
  decide

/-- C4: creating a new problem writes the instance id into the `.uuid`
marker before saving; the saved record is appended to the store, and a
second run over the unchanged directory (with validation passing, the
generated id well-formed, stripped by whitespace-trimming to itself, and
absent from the store) finds the marker, matches the persisted record and
takes the update branch, leaving the stored primary keys unchanged instead
of creating a duplicate. -/
theorem C4_marker_persists_across_reloads (g : GEnv) (wcode : String)
    (pe pe2 : PEnv) (db : List CtfProblem) (ppath : String) (dir : ProbDir)
    (data0 : Dict)
    (hy : dir.yaml = some data0) (hc : dir.uuidFile = none)
    (hvalid : ∀ p, g.validP p = true)
    (hU : g.isUuid pe.freshId = true)
    (htrim : pstrip pe.freshId = pe.freshId)
    (hfresh : ∀ q ∈ db, pk q ≠ Val.str pe.freshId) :
    (processProblem g wcode pe db ppath dir).dir.uuidFile =
      some (pkStr (mkProblem pe (fullData wcode ppath data0 none))) ∧
    (processProblem g wcode pe db ppath dir).db =
      db ++ [mkProblem pe (fullData wcode ppath data0 none)] ∧
    (processProblem g wcode pe2 (processProblem g wcode pe db ppath dir).db
        ppath (processProblem g wcode pe db ppath dir).dir).action =
      Action.updated ∧
    (processProblem g wcode pe2 (processProblem g wcode pe db ppath dir).db
        ppath (processProblem g wcode pe db ppath dir).dir).db.map pk =
      (processProblem g wcode pe db ppath dir).db.map pk := by
  set p1 := mkProblem pe (fullData wcode ppath data0 none) with hp1def
  have hpk1 : pk p1 = Val.str pe.freshId :=
    pk_mkProblem_of_not_mem pe _ (memD_fullData_none wcode ppath data0)
  have hpkStr1 : pkStr p1 = pe.freshId := by
    rw [pkStr, hpk1]
    rfl
  have h1 : processProblem g wcode pe db ppath dir =
      finishSave g pe db { dir with uuidFile := some (pkStr p1) } p1
        .created (pkStr p1) := by
    rw [processProblem_create_noFile g wcode pe db ppath dir data0 hy hc,
        createPath_eq]
  have hnotmem : ∀ q ∈ db, pk q ≠ pk p1 := by
    intro q hq
    rw [hpk1]
    exact hfresh q hq
  have hdb1 : (processProblem g wcode pe db ppath dir).db = db ++ [p1] := by
    rw [h1, finishSave_db_valid g pe db _ p1 .created _ (hvalid p1)]
    exact upsert_of_not_mem db p1 hnotmem
  have hdir1 : (processProblem g wcode pe db ppath dir).dir =
      { dir with uuidFile := some (pkStr p1) } := by
    rw [h1, finishSave_dir]
  have hy2 : ((processProblem g wcode pe db ppath dir).dir).yaml =
      some data0 := by
    rw [hdir1]
    exact hy
  have hc2 : ((processProblem g wcode pe db ppath dir).dir).uuidFile =
      some pe.freshId := by
    rw [hdir1]
    show some (pkStr p1) = some pe.freshId
    rw [hpkStr1]
  have hU2 : g.isUuid (pstrip pe.freshId) = true := by
    rw [htrim]
    exact hU
  have hfind : dbFind (db ++ [p1]) (Val.str (pstrip pe.freshId)) = some p1 := by
    rw [htrim]
    have hap := dbFind_append_single db p1 hnotmem
    rw [hpk1] at hap
    exact hap
  have h2 : processProblem g wcode pe2
        (processProblem g wcode pe db ppath dir).db ppath
        (processProblem g wcode pe db ppath dir).dir =
      finishSave g pe2 (db ++ [p1])
        ((processProblem g wcode pe db ppath dir).dir)
        (applyData p1 (fullData wcode ppath data0 (some (pstrip pe.freshId))))
        .updated (pstrip pe.freshId) := by
    rw [hdb1]
    exact processProblem_update g wcode pe2 (db ++ [p1]) ppath _ data0
      pe.freshId p1 hy2 hc2 hU2 hfind
  have hpk2 : pk (applyData p1 (fullData wcode ppath data0
      (some (pstrip pe.freshId)))) = Val.str (pstrip pe.freshId) :=
    pk_applyData_of_last p1 _ _
      (lastGetD_fullData_some wcode ppath data0 (pstrip pe.freshId))
  refine ⟨by rw [hdir1], hdb1, ?_, ?_⟩
  · rw [h2, finishSave_action]
  · rw [h2, hdb1]
    refine finishSave_db_map g pe2 (db ++ [p1]) _ _ _ _ ⟨p1, by simp, ?_⟩
    rw [hpk1, hpk2, htrim]

/-- C4 witness: over an initially empty store, a create followed by a
rerun of the loader on the resulting directory takes the update branch. -/
theorem C4_witness :
    ((⟨some [], none, none, false⟩ : ProbDir).uuidFile = none) ∧
    (processProblem ⟨fun s => s == "f1", fun _ => true⟩ "w" ⟨true, "f1"⟩
      (processProblem ⟨fun s => s == "f1", fun _ => true⟩ "w" ⟨true, "f1"⟩
        [] "p" ⟨some [], none, none, false⟩).db "p"
      (processProblem ⟨fun s => s == "f1", fun _ => true⟩ "w" ⟨true, "f1"⟩
        [] "p" ⟨some [], none, none, false⟩).dir).action = Action.updated := by
  refine ⟨rfl, ?_⟩
  have h := C4_marker_persists_across_reloads
    ⟨fun s => s == "f1", fun _ => true⟩ "w" ⟨true, "f1"⟩ ⟨true, "f1"⟩ []
    "p" ⟨some [], none, none, false⟩ [] rfl rfl (fun _ => rfl) (by decide)
    (by decide) (by intro q hq; exact absurd hq (by simp))
  exact h.2.2.1

/-! ## Lemmas about the handle loop -/

theorem runProbs_cons (g : GEnv) (wcode wpath : String)
    (pr : String × PDirEntry) (rest : List (String × PDirEntry))
    (st : LoopState) :
    runProbs g wcode wpath (pr :: rest) st =
      runProbs g wcode wpath rest (stepState g wcode wpath st pr.1 pr.2) := by
  simp [runProbs]

theorem runWindows_cons (g : GEnv) (base : String) (w : String × PTree)
    (ws : List (String × PTree)) (st : LoopState) :
    runWindows g base (w :: ws) st =
      runWindows g base ws (runProbs g w.1 (pjoin base w.1) (walk w.2) st) := by
  simp [runWindows]

theorem stepState_errors (g : GEnv) (wcode wpath : String) (st : LoopState)
    (pname : String) (pe : PDirEntry) :
    (stepState g wcode wpath st pname pe).errors = st.errors ++
      (processProblem g wcode pe.penv st.db (pjoin wpath pname)
        pe.content).error.toList := rfl

theorem stepStateD_ok (g : GEnv) (wcode wpath : String) (st : LoopState)
    (pname : String) (pe : PDirEntry)
    (he : (processProblem g wcode pe.penv st.db (pjoin wpath pname)
      pe.content).error = none) :
    stepStateD g wcode wpath st pname pe =
      Except.ok (stepState g wcode wpath st pname pe) := by
  simp [stepStateD, stepState, he]

theorem stepStateD_err (g : GEnv) (wcode wpath : String) (st : LoopState)
    (pname : String) (pe : PDirEntry) (e : LoadError)
    (he : (processProblem g wcode pe.penv st.db (pjoin wpath pname)
      pe.content).error = some e) :
    stepStateD g wcode wpath st pname pe = Except.error e := by
  simp [stepStateD, he]

theorem runProbs_errors_mono (g : GEnv) (wcode wpath : String)
    (probs : List (String × PDirEntry)) (st : LoopState) :
    ∃ t, (runProbs g wcode wpath probs st).errors = st.errors ++ t := by
  induction probs generalizing st with
  | nil => exact ⟨[], by simp [runProbs]⟩
  | cons pr rest ih =>
      obtain ⟨t, ht⟩ := ih (stepState g wcode wpath st pr.1 pr.2)
      refine ⟨(processProblem g wcode pr.2.penv st.db (pjoin wpath pr.1)
        pr.2.content).error.toList ++ t, ?_⟩
      rw [runProbs_cons, ht, stepState_errors, List.append_assoc]

theorem runWindows_errors_mono (g : GEnv) (base : String)
    (ws : List (String × PTree)) (st : LoopState) :
    ∃ t, (runWindows g base ws st).errors = st.errors ++ t := by
  induction ws generalizing st with
  | nil => exact ⟨[], by simp [runWindows]⟩
  | cons w rest ih =>
      obtain ⟨t1, h1⟩ := runProbs_errors_mono g w.1 (pjoin base w.1) (walk w.2) st
      obtain ⟨t2, h2⟩ := ih (runProbs g w.1 (pjoin base w.1) (walk w.2) st)
      exact ⟨t1 ++ t2, by rw [runWindows_cons, h2, h1, List.append_assoc]⟩

theorem runProbsD_spec (g : GEnv) (wcode wpath : String)
    (probs : List (String × PDirEntry)) (st : LoopState) :
    (runProbsD g wcode wpath probs st =
        Except.ok (runProbs g wcode wpath probs st) ∧
      (runProbs g wcode wpath probs st).errors = st.errors)
    ∨ (∃ e t, runProbsD g wcode wpath probs st = Except.error e ∧
        (runProbs g wcode wpath probs st).errors = st.errors ++ e :: t) := by
  induction probs generalizing st with
  | nil => exact Or.inl ⟨rfl, rfl⟩
  | cons pr rest ih =>
      have hconsD : runProbsD g wcode wpath (pr :: rest) st =
          (stepStateD g wcode wpath st pr.1 pr.2) >>= fun st' =>
            runProbsD g wcode wpath rest st' := by
        simp [runProbsD]
      cases he : (processProblem g wcode pr.2.penv st.db (pjoin wpath pr.1)
          pr.2.content).error with
      | none =>
          have hok := stepStateD_ok g wcode wpath st pr.1 pr.2 he
          have hthis : runProbsD g wcode wpath (pr :: rest) st =
              runProbsD g wcode wpath rest
                (stepState g wcode wpath st pr.1 pr.2) := by
            rw [hconsD, hok]
            rfl
          have hstep : (stepState g wcode wpath st pr.1 pr.2).errors =
              st.errors := by
            rw [stepState_errors, he]
            simp
          rcases ih (stepState g wcode wpath st pr.1 pr.2) with
            ⟨hD, hErr⟩ | ⟨e, t, hD, hErr⟩
          · exact Or.inl ⟨by rw [hthis, hD, runProbs_cons],
              by rw [runProbs_cons, hErr, hstep]⟩
          · exact Or.inr ⟨e, t, by rw [hthis, hD],
              by rw [runProbs_cons, hErr, hstep]⟩
      | some e =>
          have herr := stepStateD_err g wcode wpath st pr.1 pr.2 e he
          have hD : runProbsD g wcode wpath (pr :: rest) st =
              Except.error e := by
            rw [hconsD, herr]
            rfl
          obtain ⟨t, ht⟩ := runProbs_errors_mono g wcode wpath rest
            (stepState g wcode wpath st pr.1 pr.2)
          refine Or.inr ⟨e, t, hD, ?_⟩
          rw [runProbs_cons, ht, stepState_errors, he, List.append_assoc]
          rfl

theorem runWindowsD_spec (g : GEnv) (base : String)
    (ws : List (String × PTree)) (st : LoopState) :
    (runWindowsD g base ws st = Except.ok (runWindows g base ws st) ∧
      (runWindows g base ws st).errors = st.errors)
    ∨ (∃ e t, runWindowsD g base ws st = Except.error e ∧
        (runWindows g base ws st).errors = st.errors ++ e :: t) := by
  induction ws generalizing st with
  | nil => exact Or.inl ⟨rfl, rfl⟩
  | cons w rest ih =>
      have hconsD : runWindowsD g base (w :: rest) st =
          (runProbsD g w.1 (pjoin base w.1) (walk w.2) st) >>= fun st' =>
            runWindowsD g base rest st' := by
        simp [runWindowsD]
      rcases runProbsD_spec g w.1 (pjoin base w.1) (walk w.2) st with
        ⟨hD1, hE1⟩ | ⟨e, t, hD1, hE1⟩
      · have hthis : runWindowsD g base (w :: rest) st =
            runWindowsD g base rest
              (runProbs g w.1 (pjoin base w.1) (walk w.2) st) := by
          rw [hconsD, hD1]
          rfl
        rcases ih (runProbs g w.1 (pjoin base w.1) (walk w.2) st) with
          ⟨hD2, hE2⟩ | ⟨e, t, hD2, hE2⟩
        · exact Or.inl ⟨by rw [hthis, hD2, runWindows_cons],
            by rw [runWindows_cons, hE2, hE1]⟩
        · exact Or.inr ⟨e, t, by rw [hthis, hD2],
            by rw [runWindows_cons, hE2, hE1]⟩
      · have hD : runWindowsD g base (w :: rest) st = Except.error e := by
          rw [hconsD, hD1]
          rfl
        obtain ⟨t2, ht2⟩ := runWindows_errors_mono g base rest
          (runProbs g w.1 (pjoin base w.1) (walk w.2) st)
        refine Or.inr ⟨e, t ++ t2, hD, ?_⟩
        rw [runWindows_cons, ht2, hE1, List.append_assoc]
        simp

/-! ## More claim theorems -/

/-- C3: in non-debug mode the command raises at the end exactly when some
exception was collected; the debug run fails with an error exactly when
the non-debug error list is non-empty, and that error is the first
collected one; the debug run succeeds exactly when the non-debug error
list is empty; and the loop is compositional, so an error in one window
does not stop the remaining windows from being processed. -/
theorem C3_error_collection (g : GEnv) (clear : Bool) (base : String)
    (tree : WTree) (db0 : List CtfProblem) :
    ((handle g clear base tree db0).raised = true ↔
      (handle g clear base tree db0).errors ≠ [])
    ∧ (∀ e, handleD g clear base tree db0 = Except.error e ↔
        (handle g clear base tree db0).errors.head? = some e)
    ∧ ((∃ out, handleD g clear base tree db0 = Except.ok out) ↔
        (handle g clear base tree db0).errors = [])
    ∧ (∀ ws1 ws2 st, runWindows g base (ws1 ++ ws2) st =
        runWindows g base ws2 (runWindows g base ws1 st)) := by
  have part1 : (handle g clear base tree db0).raised = true ↔
      (handle g clear base tree db0).errors ≠ [] := by
    show (!(runWindows g base (walk tree) ⟨db0, [], [], []⟩).errors.isEmpty)
        = true ↔
      (runWindows g base (walk tree) ⟨db0, [], [], []⟩).errors ≠ []
    cases hx : (runWindows g base (walk tree) ⟨db0, [], [], []⟩).errors <;> simp
  have part4 : ∀ ws1 ws2 st, runWindows g base (ws1 ++ ws2) st =
      runWindows g base ws2 (runWindows g base ws1 st) := by
    intro ws1 ws2 st
    simp [runWindows, List.foldl_append]
  rcases runWindowsD_spec g base (walk tree) ⟨db0, [], [], []⟩ with
    ⟨hD, hErr⟩ | ⟨e0, t, hD, hErr⟩
  · have hErr0 : (runWindows g base (walk tree) ⟨db0, [], [], []⟩).errors =
        [] := hErr
    have hok0 : handleD g clear base tree db0 = Except.ok
        { db := clearStep clear (runWindows g base (walk tree) ⟨db0, [], [], []⟩).db (runWindows g base (walk tree) ⟨db0, [], [], []⟩).processed,
          errors := [],
          processed := (runWindows g base (walk tree) ⟨db0, [], [], []⟩).processed,
          copies := (runWindows g base (walk tree) ⟨db0, [], [], []⟩).copies,
          raised := false } := by
      unfold handleD
      rw [hD]
      rfl
    have hok : ∃ out, handleD g clear base tree db0 = Except.ok out :=
      ⟨_, hok0⟩
    refine ⟨part1, ?_, ?_, part4⟩
    · intro e
      constructor
      · intro hcon
        obtain ⟨out, hout⟩ := hok
        rw [hout] at hcon
        exact absurd hcon (by simp)
      · intro hcon
        have : (handle g clear base tree db0).errors = [] := hErr0
        rw [this] at hcon
        exact absurd hcon (by simp)
    · exact ⟨fun _ => hErr0, fun _ => hok⟩
  · have hErr0 : (handle g clear base tree db0).errors = e0 :: t := by
      show (runWindows g base (walk tree) ⟨db0, [], [], []⟩).errors = e0 :: t
      rw [hErr]
      rfl
    have herrD : handleD g clear base tree db0 = Except.error e0 := by
      unfold handleD
      rw [hD]
      rfl
    refine ⟨part1, ?_, ?_, part4⟩
    · intro e
      rw [herrD, hErr0]
      constructor
      · intro h
        have : e0 = e := by
          have := congrArg (fun x => match x with
            | Except.error a => some a
            | Except.ok _ => none) h
          simpa using this
        rw [this]
        rfl
      · intro h
        have : e0 = e := by simpa using h
        rw [this]
    · constructor
      · rintro ⟨out, hout⟩
        rw [herrD] at hout
        exact absurd hout (by simp)
      · intro h
        rw [hErr0] at h
        exact absurd h (by simp)

/-- C3 witness: one missing problem file makes the non-debug command raise
with exactly that error collected, and the debug command re-raise it. -/
theorem C3_witness :
    (handle ⟨fun s => s == "u1", fun _ => true⟩ false "b"
      [Entry.dir "w" [Entry.dir "p" ⟨⟨none, none, none, false⟩, ⟨true, "f1"⟩⟩]]
      []).raised = true ∧
    handleD ⟨fun s => s == "u1", fun _ => true⟩ false "b"
      [Entry.dir "w" [Entry.dir "p" ⟨⟨none, none, none, false⟩, ⟨true, "f1"⟩⟩]]
      [] = Except.error LoadError.noProblemFile := by
  constructor
  · exact (C3_error_collection ⟨fun s => s == "u1", fun _ => true⟩ false "b"
      [Entry.dir "w" [Entry.dir "p" ⟨⟨none, none, none, false⟩, ⟨true, "f1"⟩⟩]]
      []).1.mpr (by decide)
  · exact ((C3_error_collection ⟨fun s => s == "u1", fun _ => true⟩ false "b"
      [Entry.dir "w" [Entry.dir "p" ⟨⟨none, none, none, false⟩, ⟨true, "f1"⟩⟩]]
      []).2.1 LoadError.noProblemFile).mpr (by decide)

theorem mem_upsert_self (db : List CtfProblem) (p : CtfProblem) :
    p ∈ upsert db p := by
  unfold upsert
  by_cases h : db.any (fun q => pk q = pk p) = true
  · rw [if_pos h]
    simp only [List.any_eq_true, decide_eq_true_eq] at h
    obtain ⟨q, hq, hpq⟩ := h
    refine List.mem_map.mpr ⟨q, hq, ?_⟩
    rw [if_pos hpq]
  · rw [if_neg h]
    simp

theorem finishSave_copyError_inv (g : GEnv) (pe : PEnv)
    (db : List CtfProblem) (dir : ProbDir) (p : CtfProblem) (act : Action)
    (u : String)
    (he : (finishSave g pe db dir p act u).error = some LoadError.copyError) :
    (finishSave g pe db dir p act u).prob = some p ∧
    (finishSave g pe db dir p act u).db = upsert db p ∧
    (finishSave g pe db dir p act u).processedId = none := by
  unfold finishSave at he ⊢
  by_cases hv : g.validP p = true <;> by_cases hs : dir.hasStatic = true <;>
    by_cases hc : pe.copyOk = true <;> simp [hv, hs, hc] at he ⊢

theorem processProblem_copyError (g : GEnv) (wcode : String) (pe : PEnv)
    (db : List CtfProblem) (ppath : String) (dir : ProbDir)
    (he : (processProblem g wcode pe db ppath dir).error =
      some LoadError.copyError) :
    ∃ p, (processProblem g wcode pe db ppath dir).prob = some p ∧
      (processProblem g wcode pe db ppath dir).db = upsert db p ∧
      (processProblem g wcode pe db ppath dir).processedId = none := by
  cases hy : dir.yaml with
  | none =>
      rw [processProblem_noYaml g wcode pe db ppath dir hy] at he
      exact absurd he (by simp)
  | some data0 =>
      obtain ⟨p, act, dir', heq, -⟩ :=
        processProblem_shape g wcode pe db ppath dir data0 hy
      rw [heq] at he ⊢
      obtain ⟨h1, h2, h3⟩ := finishSave_copyError_inv g pe db dir' p act _ he
      exact ⟨p, h1, h2, h3⟩

/-- C10: a problem whose save succeeded but whose static copy failed is
persisted but not recorded as processed, so a run with the clear option
deletes it (together with every other unprocessed record) at the end. -/
theorem C10_copy_failure_clear_deletes (g : GEnv) (pe : PEnv)
    (db0 : List CtfProblem) (base wname pname : String) (dir : ProbDir)
    (hw : startsUnderscore wname = false)
    (hp : startsUnderscore pname = false)
    (he : (processProblem g wname pe db0 (pjoin (pjoin base wname) pname)
      dir).error = some LoadError.copyError) :
    ∃ p, (processProblem g wname pe db0 (pjoin (pjoin base wname) pname)
        dir).prob = some p ∧
      (processProblem g wname pe db0 (pjoin (pjoin base wname) pname)
        dir).processedId = none ∧
      (∃ q ∈ (processProblem g wname pe db0 (pjoin (pjoin base wname) pname)
        dir).db, pk q = pk p) ∧
      (handle g true base [Entry.dir wname [Entry.dir pname ⟨dir, pe⟩]]
        db0).db = [] := by
  obtain ⟨p, hprob, hdb, hpid⟩ :=
    processProblem_copyError g wname pe db0 _ dir he
  refine ⟨p, hprob, hpid, ⟨p, ?_, rfl⟩, ?_⟩
  · rw [hdb]
    exact mem_upsert_self db0 p
  · have hwalk1 : walk ([Entry.dir wname [Entry.dir pname ⟨dir, pe⟩]] :
        WTree) = [(wname, [Entry.dir pname ⟨dir, pe⟩])] := by
      simp [walk, hw]
    have hwalk2 : walk ([Entry.dir pname (⟨dir, pe⟩ : PDirEntry)] : PTree) =
        [(pname, ⟨dir, pe⟩)] := by
      simp [walk, hp]
    have hloop : handleLoop g base
        [Entry.dir wname [Entry.dir pname ⟨dir, pe⟩]] db0 =
        stepState g wname (pjoin base wname) ⟨db0, [], [], []⟩ pname
          ⟨dir, pe⟩ := by
      unfold handleLoop
      rw [hwalk1, runWindows_cons, hwalk2, runProbs_cons]
      rfl
    have hproc : (stepState g wname (pjoin base wname) ⟨db0, [], [], []⟩
        pname ⟨dir, pe⟩).processed = [] := by
      simp [stepState, hpid]
    have hclear : ∀ d, clearStep true d [] = [] := by
      intro d
      simp [clearStep]
    show clearStep true
      (handleLoop g base [Entry.dir wname [Entry.dir pname ⟨dir, pe⟩]]
        db0).db
      (handleLoop g base [Entry.dir wname [Entry.dir pname ⟨dir, pe⟩]]
        db0).processed = []
    rw [hloop, hproc]
    exact hclear _

/-- C10 witness: a copy failure on a freshly created problem leaves it in
the store after the loop, yet the clear step empties the store. -/
theorem C10_witness :
    (processProblem ⟨fun s => s == "u1", fun _ => true⟩ "w" ⟨false, "f1"⟩
      [] (pjoin (pjoin "b" "w") "p") ⟨some [], none, none, true⟩).error =
      some LoadError.copyError ∧
    (handle ⟨fun s => s == "u1", fun _ => true⟩ true "b"
      [Entry.dir "w" [Entry.dir "p" ⟨⟨some [], none, none, true⟩,
        ⟨false, "f1"⟩⟩]] []).db = [] := by
  refine ⟨by decide, ?_⟩
  have h := C10_copy_failure_clear_deletes ⟨fun s => s == "u1", fun _ => true⟩
    ⟨false, "f1"⟩ [] "b" "w" "p" ⟨some [], none, none, true⟩
    (by decide) (by decide) (by decide)
  obtain ⟨p, -, -, -, hdb⟩ := h
  exact hdb

/-- C5: the walk yields exactly the immediate children that are
directories whose basenames do not begin with an underscore; a plain file
entry and an underscore-prefixed directory entry contribute nothing. -/
theorem C5_walk_yields_dirs {α : Type} (entries : List (Entry α))
    (n : String) (p : α) :
    ((n, p) ∈ walk entries ↔
      Entry.dir n p ∈ entries ∧ startsUnderscore n = false)
    ∧ (∀ (m : String) (rest : List (Entry α)),
        walk (Entry.file m :: rest) = walk rest)
    ∧ (∀ (m : String) (q : α) (rest : List (Entry α)),
        startsUnderscore m = true →
          walk (Entry.dir m q :: rest) = walk rest) := by
  refine ⟨?_, ?_, ?_⟩
  · rw [walk, List.mem_filterMap]
    constructor
    · rintro ⟨e, he, hf⟩
      cases e with
      | file m => simp at hf
      | dir m q =>
          by_cases hm : startsUnderscore m = true
          · simp [hm] at hf
          · rw [Bool.not_eq_true] at hm
            simp [hm] at hf
            obtain ⟨hmn, hqp⟩ := hf
            subst hmn
            subst hqp
            exact ⟨he, hm⟩
    · rintro ⟨he, hs⟩
      exact ⟨Entry.dir n p, he, by simp [hs]⟩
  · intro m rest
    simp [walk]
  · intro m q rest hm
    simp [walk, hm]

/-- C5 witness: a file, an underscored directory and a plain directory;
only the plain directory is yielded. -/
theorem C5_witness :
    ("w", (0 : Nat)) ∈
      walk [Entry.file "a", Entry.dir "_x" (1 : Nat), Entry.dir "w" 0] :=
  (C5_walk_yields_dirs [Entry.file "a", Entry.dir "_x" (1 : Nat),
    Entry.dir "w" 0] "w" 0).1.mpr ⟨by simp, by decide⟩

/-- C7: every data model of the module is registered with the admin site
(the user admin inlining the competitor model), and every model going
through `AllFieldModelAdmin` gets as list-display columns exactly the
model fields minus that admin class `EXCLUDE` names plus its `INCLUDE`
names. -/
theorem C7_admin_registrations (fields : List String) :
    (∀ m : ModelName, ∃ k, (m, k) ∈ registrations) ∧
    ((ModelName.user, AdminKind.userAdmin ["Competitor"]) ∈ registrations) ∧
    (∀ m a, (m, AdminKind.allField a) ∈ registrations →
      listDisplay a fields =
        (fields.filter (fun f => f ∉ a.EXCLUDE)) ++ a.INCLUDE) := by
  refine ⟨?_, by simp [registrations], fun m a _ => rfl⟩
  intro m
  cases m with
  | user =>
      exact ⟨AdminKind.userAdmin ["Competitor"], by simp [registrations]⟩
  | team => exact ⟨AdminKind.allField TeamAdmin, by simp [registrations]⟩
  | window => exact ⟨AdminKind.allField WindowAdmin, by simp [registrations]⟩
  | timer => exact ⟨AdminKind.allField TimerAdmin, by simp [registrations]⟩
  | ctfProblem =>
      exact ⟨AdminKind.allField CtfProblemAdmin, by simp [registrations]⟩
  | solve => exact ⟨AdminKind.allField SolveAdmin, by simp [registrations]⟩
  | submission =>
      exact ⟨AdminKind.allField SubmissionAdmin, by simp [registrations]⟩
  | announcement =>
      exact ⟨AdminKind.announcementAdmin ["title", "date", "window"],
        by simp [registrations]⟩

/-- C7 witness: the team admin on a four-field model drops `id` and
`passphrase` and appends `size`. -/
theorem C7_witness :
    listDisplay TeamAdmin ["id", "name", "passphrase", "banned"] =
      ["name", "banned", "size"] := by
  have h := (C7_admin_registrations
    ["id", "name", "passphrase", "banned"]).2.2 ModelName.team TeamAdmin
    (by simp [registrations])
  rw [h]
  decide

end Pactf
